import Mathlib

/-!
# Verification of the `build_raw` streaming-ingestion orchestrator

This file gives a shallow embedding of `pygama/raw/build_raw.py` and proves
properties of it.  `build_raw` is modelled as a pure function from an
environment (the observable behaviour of the filesystem and of the pluggable
streamer, which live outside this module) and the call arguments to a trace of
side-effect events plus an optional abort condition.

The embedding follows the Python source line by line:
* input-existence check and stream-type inference (lines 56-74),
* default output-name synthesis (lines 76-85),
* buffer-size validation and clipping against `n_max` (lines 87-91),
* verbosity-gated progress printing (lines 93-111, 134, 140, 164-166, 173),
* streamer dispatch (lines 113-131),
* stream opening (lines 133-140),
* the pre-flight overwrite check over all destinations (lines 142-154),
* the header write (lines 156-158),
* the chunked decoding loop with row-budget clipping (lines 160-175),
* the summary report (lines 177-195).

`n_max` can be `numpy.inf` in the source; it is modelled as `Option Nat`
with `none` standing for the infinite sentinel.  `buffer_size` is an `Int`
so that the `buffer_size < 1` validation is meaningful.
-/

namespace BuildRaw

/-- Abort conditions of `build_raw`.  In the source each of these is a
`print` of an error message followed by `return`; the spec's error taxonomy
names the corresponding conditions `InputNotFoundError`, `UnknownFormatError`,
`OutputExistsError`, etc. -/
inductive RunError where
  | inputNotFound
  | unknownFormat
  | badBufferSize
  | notImplemented
  | unknownStreamType
  | multipleMatches
  | outputExists
  deriving DecidableEq, Repr

/-- Side effects and observable actions performed by one run of `build_raw`,
in order.  `consoleLine`, `progressUpdate` and `summaryReport` are purely
observational (stdout / tqdm); the remaining constructors are the calls that
read the input or mutate the output store. -/
inductive Event where
  | consoleLine (s : String)
  | progressUpdate (n : Nat)
  | selectStreamer (t : String)
  | openStream (bufferSize : Int) (outStream : List Char)
  | checkDest (i : Nat)
  | deleteDest (i : Nat)
  | writeHeader (h : Nat)
  | readChunk
  | writeChunk (locs : List Nat)
  | summaryReport (elapsed : Nat) (destSizes : List Nat) (totalBytes : Nat) (throughput : Nat)
  | finalize
  deriving DecidableEq, Repr

/-- The shape of the `out_spec` argument: `None`, a filename string, an
already-built `RawBufferLibrary`, or a json dict describing one.  For the
library/dict cases `build_raw` sets `out_stream = ''`. -/
inductive OutSpec where
  | unspecified
  | path (s : List Char)
  | bufferLib
  | jsonDict
  deriving DecidableEq, Repr

/-- The arguments of `build_raw` (after environment-variable expansion of
`in_stream`).  `nMax = none` models the default `n_max = numpy.inf`. -/
structure Args where
  inStream : List Char
  inStreamType : Option String
  outSpec : OutSpec
  bufferSize : Int
  nMax : Option Nat
  overwrite : Bool
  verbosity : Int
  deriving DecidableEq, Repr

/-- The behaviour of the world outside `build_raw.py`: the filesystem and the
`FCStreamer` (whose module `fc/fc_streamer.py` is an external collaborator of
this file).  Modelled from the spec: the Streamer contract says `open` parses
the header and returns header metadata, `read_chunk` "returns the list of
Buffers that changed" and "returns an empty list exactly at end-of-input",
and the byte counters are "used purely for progress reporting".  Accordingly:
* `destGlobs` is the number of `glob.glob` matches for each destination of the
  resolved buffer library, in `rb_lib.get_list_of('out_stream')` order;
* `chunks` lists, for each successive `read_chunk` call, the fill cursors
  (`rb.loc`) of the returned buffers;
* `bytesAfterChunk` gives `streamer.n_bytes_read` after each `read_chunk`. -/
structure Env where
  inExists : Bool
  inStreamSize : Nat
  headerData : Nat
  destGlobs : List Nat
  chunks : List (List Nat)
  bytesAfterOpen : Nat
  bytesAfterChunk : List Nat
  destSizes : List Nat
  elapsed : Nat
  bytesTotal : Nat
  deriving DecidableEq, Repr

/-- Emit a block of observational events only when a verbosity condition
holds (the `if verbosity > ...: print/update` pattern of the source). -/
def obsIf (c : Prop) [Decidable c] (evs : List Event) : List Event :=
  if c then evs else []

/-- Python's `str.rfind`: index of the last occurrence of `c`, if any. -/
def rfindIdx (c : Char) : List Char → Option Nat
  | [] => none
  | a :: as =>
    match rfindIdx c as with
    | some i => some (i + 1)
    | none => if a = c then some 0 else none

/-- Lines 64-74: infer the stream type from the file extension.  `None` models
falling into one of the two `print(...); return` branches (no `'.'` in the
name, or an extension other than `fcio`). -/
def inferStreamType (s : List Char) : Option String :=
  match rfindIdx '.' s with
  | none => none
  | some i => if s.drop (i + 1) = ['f', 'c', 'i', 'o'] then some "FlashCam" else none

/-- Lines 81-85: with `out_spec = None`, the output file is the input name
with everything from the last `'.'` on replaced by `'.lh5'` (or `'.lh5'`
appended when there is no dot). -/
def defaultOutSpec (s : List Char) : List Char :=
  (match rfindIdx '.' s with
   | none => s
   | some i => s.take i) ++ ['.', 'l', 'h', '5']

/-- Spec-side reading of "extension": the suffix after the last `'.'`,
computed by scanning from the end of the name.  Used to check the code's
`rfind`-based computation against the spec's words. -/
def extOf (s : List Char) : Option (List Char) :=
  if '.' ∈ s then some (s.reverse.takeWhile (fun c => c ≠ '.')).reverse else none

/-- Spec-side reading of "input path with its extension (the suffix after the
last `'.'`) replaced": everything strictly before the last `'.'`, or the whole
name when there is no dot. -/
def specStem (s : List Char) : List Char :=
  if '.' ∈ s then ((s.reverse.dropWhile (fun c => c ≠ '.')).drop 1).reverse else s

/-- Modelled from the spec: `raw_buffer.py` (an external collaborator of this
file) builds, when `rb_lib=None`, a "dummy rb_lib sending all data to
out_spec" — per the spec, "synthesize a single destination ... that will
receive every stream identity".  Stream identities are abstracted as `Nat`. -/
def defaultRbLib (outStream : List Char) : Nat → List Char := fun _ => outStream

/-- Lines 65-74 as used at line 65: the resolved stream type, either the
explicit argument or the extension-based inference. -/
def resolveStreamType (a : Args) : Option String :=
  match a.inStreamType with
  | some t => some t
  | none => inferStreamType a.inStream

/-- Line 135: `out_stream = out_spec if isinstance(out_spec, str) else ''`,
with the `out_spec is None` case already replaced by the synthesized default
(lines 81-85). -/
def outStreamOf (a : Args) : List Char :=
  match a.outSpec with
  | OutSpec.path s => s
  | OutSpec.unspecified => defaultOutSpec a.inStream
  | _ => []

/-- Lines 87-91 (second half): `if buffer_size > n_max: buffer_size = n_max`. -/
def effectiveBufferSize (bufferSize : Int) (nMax : Option Nat) : Int :=
  match nMax with
  | none => bufferSize
  | some m => if bufferSize > (m : Int) then (m : Int) else bufferSize

/-- Lines 113-131: streamer dispatch.  Only `'FlashCam'` yields a streamer;
every other type prints an error and returns. -/
def dispatch (t : String) : Option RunError :=
  if t = "ORCA" then some RunError.notImplemented
  else if t = "FlashCam" then none
  else if t = "LlamaDaq" then some RunError.notImplemented
  else if t = "Compass" then some RunError.notImplemented
  else if t = "MGDO" then some RunError.notImplemented
  else some RunError.unknownStreamType

/-- Lines 144-154: the pre-flight overwrite loop.  For the destination at
index `i` with `g` glob matches: no match → `continue`; more than one match →
abort; a match with `overwrite` unset → abort; otherwise `os.remove` and
continue.  Returns the events performed and the abort condition, if any. -/
def preflight (overwrite : Bool) : Nat → List Nat → List Event × Option RunError
  | _, [] => ([], none)
  | i, g :: gs =>
    if g = 0 then
      (Event.checkDest i :: (preflight overwrite (i + 1) gs).1,
        (preflight overwrite (i + 1) gs).2)
    else if g > 1 then
      ([Event.checkDest i, Event.consoleLine "Error: got multiple matches for out_file"],
        some RunError.multipleMatches)
    else if overwrite = false then
      ([Event.checkDest i, Event.consoleLine "Error: file exists. Use option overwrite to proceed."],
        some RunError.outputExists)
    else
      (Event.checkDest i :: Event.deleteDest i :: (preflight overwrite (i + 1) gs).1,
        (preflight overwrite (i + 1) gs).2)

/-- `n_max <= 0` on the running budget (a `Nat` budget is never negative
because each `rb.loc` is clipped before being subtracted). -/
def budgetExhausted : Option Nat → Bool
  | none => false
  | some m => m = 0

/-- Lines 169-172, the inner `for rb in chunk_list` loop:
`if rb.loc > n_max: rb.loc = n_max; n_max -= rb.loc`.  Returns the clipped
fill cursors (what `write_to_lh5_and_clear` will write) and the new budget. -/
def clipLocs : Option Nat → List Nat → List Nat × Option Nat
  | none, [] => ([], none)
  | none, l :: ls =>
    let r := clipLocs none ls
    (l :: r.1, r.2)
  | some m, [] => ([], some m)
  | some m, l :: ls =>
    let l' := if l > m then m else l
    let r := clipLocs (some (m - l')) ls
    (l' :: r.1, r.2)

/-- Lines 160-175: the decoding loop.  Each iteration calls `read_chunk`
(consuming the head of `cs`), updates the byte-based progress bar when the
budget is infinite, breaks on an empty chunk list, clips the fill cursors to
the remaining budget, updates the row-based progress bar when the budget is
finite, writes-and-clears the chunk, and breaks once the budget is spent.
`byteLog` supplies `streamer.n_bytes_read` after each call and `lastBytes`
is the `n_bytes_last` local (updated only under the same verbosity guard
that reads it, as in the source). -/
def decodeLoop (v : Int) : Option Nat → List (List Nat) → List Nat → Nat → List Event
  | b, [], byteLog, lastBytes =>
    Event.readChunk ::
      obsIf (1 < v ∧ b = none) [Event.progressUpdate (byteLog.headD lastBytes - lastBytes)]
  | b, c :: cs, byteLog, lastBytes =>
    let bytesNow := byteLog.headD lastBytes
    let byteEvs := obsIf (1 < v ∧ b = none) [Event.progressUpdate (bytesNow - lastBytes)]
    let lastBytes' := if 1 < v ∧ b = none then bytesNow else lastBytes
    if c = [] then Event.readChunk :: byteEvs
    else
      let locs := (clipLocs b c).1
      let b' := (clipLocs b c).2
      let rowEvs := obsIf (1 < v ∧ b' ≠ none) [Event.progressUpdate locs.sum]
      Event.readChunk ::
        (byteEvs ++ rowEvs ++ [Event.writeChunk locs] ++
          (if budgetExhausted b' = true then []
           else decodeLoop v b' cs byteLog.tail lastBytes'))

/-- The non-observational skeleton of `decodeLoop`: which chunks are read and
what is written, independently of verbosity and of the byte counters. -/
def decodeEffects : Option Nat → List (List Nat) → List Event
  | _, [] => [Event.readChunk]
  | b, c :: cs =>
    if c = [] then [Event.readChunk]
    else
      let locs := (clipLocs b c).1
      let b' := (clipLocs b c).2
      Event.readChunk :: Event.writeChunk locs ::
        (if budgetExhausted b' = true then [] else decodeEffects b' cs)

/-- The `print` line at the top of the verbosity block (lines 94-105; the
individual input/output/buffer-size lines are collapsed into one event). -/
def startMsg : String := "Starting build_raw processing."

/-- Lines 133-195 in the `FlashCam` branch: open the stream (which also
resolves the buffer library), run the pre-flight overwrite check, write the
header, run the decoding loop, and report the summary. -/
def flashCamRun (env : Env) (args : Args) : List Event × Option RunError :=
  let preEvs : List Event :=
    Event.selectStreamer "FlashCam" ::
      (obsIf (1 < args.verbosity) [Event.progressUpdate 0] ++
        (Event.openStream (effectiveBufferSize args.bufferSize args.nMax) (outStreamOf args) ::
          obsIf (1 < args.verbosity ∧ args.nMax = none) [Event.progressUpdate env.bytesAfterOpen]))
  match (preflight args.overwrite 0 env.destGlobs).2 with
  | some e => (preEvs ++ (preflight args.overwrite 0 env.destGlobs).1, some e)
  | none =>
    (preEvs ++ (preflight args.overwrite 0 env.destGlobs).1 ++
      (Event.writeHeader env.headerData ::
        (decodeLoop args.verbosity args.nMax env.chunks env.bytesAfterChunk env.bytesAfterOpen ++
          (obsIf (0 < args.verbosity)
            [Event.summaryReport env.elapsed env.destSizes env.bytesTotal
              (env.bytesTotal / env.elapsed)] ++
            [Event.finalize]))), none)

/-- The whole of `build_raw` (lines 56-195): existence check, stream-type
resolution, buffer-size validation, verbosity prints, streamer dispatch, and
the `FlashCam` pipeline.  The returned trace lists the performed events in
program order; the returned option is the abort condition (`none` for a run
that reaches the end of the function). -/
def buildRaw (env : Env) (args : Args) : List Event × Option RunError :=
  if env.inExists = false then
    ([Event.consoleLine "Error: file not found"], some RunError.inputNotFound)
  else
    match resolveStreamType args with
    | none =>
      ([Event.consoleLine "unknown file type or extension. Specify in_stream_type"],
        some RunError.unknownFormat)
    | some t =>
      if args.bufferSize < 1 then
        ([Event.consoleLine "Error: bad buffer_size"], some RunError.badBufferSize)
      else
        match dispatch t with
        | some e =>
          (obsIf (0 < args.verbosity) [Event.consoleLine startMsg] ++
            [Event.consoleLine "Error: streamer not available for this type"], some e)
        | none =>
          (obsIf (0 < args.verbosity) [Event.consoleLine startMsg] ++ (flashCamRun env args).1,
            (flashCamRun env args).2)

/-- Observational events: stdout lines, tqdm updates, and the printed summary
block.  Everything else reads the input or mutates the output store. -/
def isObs : Event → Bool
  | Event.consoleLine _ => true
  | Event.progressUpdate _ => true
  | Event.summaryReport _ _ _ _ => true
  | _ => false

/-- The non-observational part of a trace. -/
def effects (t : List Event) : List Event := t.filter (fun e => !(isObs e))

/-- Records contributed by one event: a chunk write hands over the (possibly
clipped) fill cursor of each buffer in the chunk. -/
def recordsOf : Event → Nat
  | Event.writeChunk locs => locs.sum
  | _ => 0

/-- Total number of records handed to the sink over a trace. -/
def recordsWritten (t : List Event) : Nat := (t.map recordsOf).sum

/-- Total number of records the streamer produces over all chunks. -/
def totalRecords (cs : List (List Nat)) : Nat := (cs.map List.sum).sum

/-- Is an event the printed summary block? -/
def isSummaryReport : Event → Bool
  | Event.summaryReport _ _ _ _ => true
  | _ => false

/-- A well-behaved sample environment: the input exists, one destination with
no pre-existing file, two chunks with one buffer each. -/
def envOk : Env :=
  { inExists := true, inStreamSize := 100, headerData := 7, destGlobs := [0],
    chunks := [[2], [3]], bytesAfterOpen := 10, bytesAfterChunk := [40, 70, 100],
    destSizes := [64], elapsed := 2, bytesTotal := 100 }

end BuildRaw

namespace BuildRaw

theorem dispatch_eq_none_iff (t : String) : dispatch t = none ↔ t = "FlashCam" := by
  unfold dispatch
  split_ifs with h1 h2 h3 h4 h5 <;> simp_all

theorem effects_append (a b : List Event) : effects (a ++ b) = effects a ++ effects b := by
  simp [effects]

theorem effects_cons (e : Event) (t : List Event) :
    effects (e :: t) = if isObs e = true then effects t else e :: effects t := by
  by_cases h : isObs e = true <;> simp [effects, List.filter_cons, h]

theorem effects_obsIf (c : Prop) [Decidable c] (evs : List Event)
    (h : ∀ e ∈ evs, isObs e = true) : effects (obsIf c evs) = [] := by
  unfold obsIf
  split
  · simp [effects, List.filter_eq_nil_iff]
    intro e he
    simp [h e he]
  · simp [effects]

theorem mem_obsIf {e : Event} {c : Prop} [Decidable c] {evs : List Event}
    (h : e ∈ obsIf c evs) : e ∈ evs := by
  unfold obsIf at h
  split at h
  · exact h
  · simp at h

theorem recordsWritten_append (a b : List Event) :
    recordsWritten (a ++ b) = recordsWritten a + recordsWritten b := by
  simp [recordsWritten]

theorem recordsWritten_cons (e : Event) (t : List Event) :
    recordsWritten (e :: t) = recordsOf e + recordsWritten t := by
  simp [recordsWritten]

theorem recordsOf_obs {e : Event} (h : isObs e = true) : recordsOf e = 0 := by
  cases e <;> simp_all [isObs, recordsOf]

theorem recordsWritten_effects (t : List Event) :
    recordsWritten (effects t) = recordsWritten t := by
  induction t with
  | nil => simp [effects, recordsWritten]
  | cons e t ih =>
    rw [effects_cons, recordsWritten_cons]
    by_cases h : isObs e = true
    · simp [h, ih, recordsOf_obs h]
    · simp [h, recordsWritten_cons, ih]

theorem recordsWritten_obsIf (c : Prop) [Decidable c] (evs : List Event)
    (h : ∀ e ∈ evs, isObs e = true) : recordsWritten (obsIf c evs) = 0 := by
  unfold obsIf
  split
  · induction evs with
    | nil => simp [recordsWritten]
    | cons e t ih =>
      rw [recordsWritten_cons, recordsOf_obs (h e (by simp)), ih]
      intro x hx
      exact h x (by simp [hx])
  · simp [recordsWritten]

end BuildRaw

namespace BuildRaw

theorem preflight_event_kinds (ow : Bool) (gs : List Nat) (i : Nat) (e : Event)
    (h : e ∈ (preflight ow i gs).1) :
    (∃ j, e = Event.checkDest j) ∨ (∃ j, e = Event.deleteDest j) ∨
      (∃ s, e = Event.consoleLine s) := by
  induction gs generalizing i with
  | nil => simp [preflight] at h
  | cons g gs ih =>
    unfold preflight at h
    split_ifs at h with h0 h1 h2 <;> simp only [List.mem_cons, List.mem_singleton] at h
    · rcases h with h | h
      · exact Or.inl ⟨i, h⟩
      · exact ih (i + 1) h
    · rcases h with h | h
      · exact Or.inl ⟨i, h⟩
      · exact Or.inr (Or.inr ⟨_, by simpa using h⟩)
    · rcases h with h | h
      · exact Or.inl ⟨i, h⟩
      · exact Or.inr (Or.inr ⟨_, by simpa using h⟩)
    · rcases h with h | h | h
      · exact Or.inl ⟨i, h⟩
      · exact Or.inr (Or.inl ⟨i, h⟩)
      · exact ih (i + 1) h

theorem preflight_no_delete (gs : List Nat) (i j : Nat)
    (h : Event.deleteDest j ∈ (preflight false i gs).1) : False := by
  induction gs generalizing i with
  | nil => simp [preflight] at h
  | cons g gs ih =>
    unfold preflight at h
    split_ifs at h with h0 h1 h2 <;>
      simp only [List.mem_cons, List.mem_singleton] at h
    · rcases h with h | h
      · simp at h
      · exact ih (i + 1) h
    · rcases h with h | h <;> simp at h
    · rcases h with h | h <;> simp at h
    · simp at h2

theorem preflight_success_checks (ow : Bool) (gs : List Nat) (i : Nat)
    (h : (preflight ow i gs).2 = none) (k : Nat) :
    Event.checkDest k ∈ (preflight ow i gs).1 ↔ i ≤ k ∧ k < i + gs.length := by
  induction gs generalizing i with
  | nil =>
    simp only [preflight, List.not_mem_nil, false_iff, List.length_nil]
    omega
  | cons g gs ih =>
    unfold preflight at h ⊢
    split_ifs at h ⊢ with h0 h1 h2
    · simp only [List.mem_cons]
      rw [ih (i + 1) h]
      simp only [List.length_cons]
      constructor
      · rintro (h | h)
        · have : k = i := by simpa [Event.checkDest.injEq] using h
          omega
        · omega
      · intro hk
        by_cases hik : k = i
        · exact Or.inl (by simp [hik])
        · exact Or.inr (by omega)
    · dsimp only
      simp only [List.mem_cons]
      rw [ih (i + 1) h]
      simp only [List.length_cons]
      constructor
      · rintro (h | h | h)
        · have : k = i := by simpa [Event.checkDest.injEq] using h
          omega
        · simp at h
        · omega
      · intro hk
        by_cases hik : k = i
        · exact Or.inl (by simp [hik])
        · exact Or.inr (Or.inr (by omega))

theorem preflight_abort_output_exists (gs : List Nat) (i : Nat)
    (hle : ∀ g ∈ gs, g ≤ 1) (hex : ∃ g ∈ gs, g = 1) :
    (preflight false i gs).2 = some RunError.outputExists := by
  induction gs generalizing i with
  | nil => simp at hex
  | cons g gs ih =>
    unfold preflight
    have hg : g ≤ 1 := hle g (by simp)
    split_ifs with h0 h1 h2
    · rcases hex with ⟨g', hg', he⟩
      rcases List.mem_cons.mp hg' with h | h
      · omega
      · exact ih (i + 1) (fun x hx => hle x (by simp [hx])) ⟨g', h, he⟩
    · omega
    · rfl
    · simp at h2

end BuildRaw

namespace BuildRaw

theorem obsIf_pos {c : Prop} [Decidable c] (h : c) (evs : List Event) : obsIf c evs = evs := by
  simp [obsIf, h]

theorem obsIf_neg {c : Prop} [Decidable c] (h : ¬c) (evs : List Event) : obsIf c evs = [] := by
  simp [obsIf, h]

theorem effects_obsIf_progress (c : Prop) [Decidable c] (n : Nat) :
    effects (obsIf c [Event.progressUpdate n]) = [] := by
  refine effects_obsIf c _ ?_
  intro e he
  simp only [List.mem_singleton] at he
  subst he
  rfl

theorem effects_obsIf_console (c : Prop) [Decidable c] (s : String) :
    effects (obsIf c [Event.consoleLine s]) = [] := by
  refine effects_obsIf c _ ?_
  intro e he
  simp only [List.mem_singleton] at he
  subst he
  rfl

theorem effects_obsIf_summary (c : Prop) [Decidable c] (a : Nat) (ds : List Nat) (tb tp : Nat) :
    effects (obsIf c [Event.summaryReport a ds tb tp]) = [] := by
  refine effects_obsIf c _ ?_
  intro e he
  simp only [List.mem_singleton] at he
  subst he
  rfl

theorem clipLocs_none_eq (c : List Nat) : clipLocs none c = (c, none) := by
  induction c with
  | nil => rfl
  | cons l ls ih => simp [clipLocs, ih]

theorem clipLocs_some_sum (c : List Nat) :
    ∀ m : Nat, (clipLocs (some m) c).1.sum = min c.sum m ∧
      (clipLocs (some m) c).2 = some (m - min c.sum m) := by
  induction c with
  | nil => intro m; simp [clipLocs]
  | cons l ls ih =>
    intro m
    simp only [clipLocs]
    by_cases hl : l > m
    · simp only [if_pos hl]
      have := ih (m - m)
      constructor
      · rw [List.sum_cons, this.1, List.sum_cons]
        omega
      · rw [this.2]
        congr 1
        simp only [List.sum_cons]
        omega
    · simp only [if_neg hl]
      have := ih (m - l)
      constructor
      · rw [List.sum_cons, this.1, List.sum_cons]
        omega
      · rw [this.2]
        congr 1
        simp only [List.sum_cons]
        omega

theorem totalRecords_cons (c : List Nat) (cs : List (List Nat)) :
    totalRecords (c :: cs) = c.sum + totalRecords cs := by
  simp [totalRecords]

theorem decodeEffects_records (cs : List (List Nat)) :
    ∀ n : Nat, (∀ c ∈ cs, c ≠ []) →
      recordsWritten (decodeEffects (some n) cs) = min (totalRecords cs) n := by
  induction cs with
  | nil =>
    intro n _
    simp [decodeEffects, recordsWritten, recordsOf, totalRecords]
  | cons c cs ih =>
    intro n h
    have hc : c ≠ [] := h c (by simp)
    have hsum := (clipLocs_some_sum c n).1
    have hsnd := (clipLocs_some_sum c n).2
    simp only [decodeEffects, if_neg hc, hsnd]
    by_cases hb : n - min c.sum n = 0
    · rw [if_pos (by simp [budgetExhausted, hb])]
      rw [recordsWritten_cons, recordsWritten_cons]
      simp only [recordsOf, hsum, totalRecords_cons]
      simp only [recordsWritten, List.map_nil, List.sum_nil]
      omega
    · rw [if_neg (by simp [budgetExhausted, hb])]
      rw [recordsWritten_cons, recordsWritten_cons]
      simp only [recordsOf, hsum, totalRecords_cons]
      rw [ih (n - min c.sum n) (fun x hx => h x (by simp [hx]))]
      omega

theorem effects_decodeLoop (v : Int) (cs : List (List Nat)) :
    ∀ (b : Option Nat) (bl : List Nat) (lb : Nat),
      effects (decodeLoop v b cs bl lb) = decodeEffects b cs := by
  induction cs with
  | nil =>
    intro b bl lb
    simp only [decodeLoop, decodeEffects]
    rw [effects_cons, effects_obsIf_progress]
    simp [isObs]
  | cons c cs ih =>
    intro b bl lb
    by_cases hc : c = []
    · simp only [decodeLoop, decodeEffects, if_pos hc]
      rw [effects_cons, effects_obsIf_progress]
      simp [isObs]
    · simp only [decodeLoop, decodeEffects, if_neg hc]
      rw [effects_cons]
      rw [effects_append, effects_append, effects_append,
        effects_obsIf_progress, effects_obsIf_progress]
      simp only [List.nil_append]
      have hw : effects [Event.writeChunk (clipLocs b c).1] =
          [Event.writeChunk (clipLocs b c).1] := by
        simp [effects, isObs]
      rw [hw]
      by_cases hb : budgetExhausted (clipLocs b c).2 = true
      · simp [hb, effects, isObs]
      · simp only [if_neg hb]
        rw [ih]
        simp [isObs]

end BuildRaw

namespace BuildRaw

theorem recordsWritten_obsIf_progress (c : Prop) [Decidable c] (n : Nat) :
    recordsWritten (obsIf c [Event.progressUpdate n]) = 0 := by
  refine recordsWritten_obsIf c _ ?_
  intro e he
  simp only [List.mem_singleton] at he
  subst he
  rfl

theorem readChunk_notin_wrap (c1 c2 : Prop) [Decidable c1] [Decidable c2]
    (n1 n2 : Nat) (l : List Nat) :
    Event.readChunk ∉
      (obsIf c1 [Event.progressUpdate n1] ++ obsIf c2 [Event.progressUpdate n2]) ++
        [Event.writeChunk l] := by
  intro hm
  simp only [List.mem_append, List.mem_singleton] at hm
  rcases hm with (hm | hm) | hm
  · exact absurd (mem_obsIf hm) (by simp)
  · exact absurd (mem_obsIf hm) (by simp)
  · exact absurd hm (by simp)

theorem split_through (p rest a b : List Event) (hnp : Event.readChunk ∉ p)
    (h : p ++ rest = a ++ Event.readChunk :: b) :
    ∃ a', a = p ++ a' ∧ rest = a' ++ Event.readChunk :: b := by
  rcases List.append_eq_append_iff.mp h with ⟨a', ha, hr⟩ | ⟨c', hp, hc⟩
  · exact ⟨a', ha, hr⟩
  · cases c' with
    | nil =>
      refine ⟨[], by simpa using hp.symm, ?_⟩
      simpa using hc.symm
    | cons x c' =>
      exfalso
      apply hnp
      have hx : x = Event.readChunk := by
        have := hc
        simp only [List.cons_append, List.cons.injEq] at this
        exact this.1.symm
      rw [hp, hx]
      simp

theorem decodeLoop_event_kinds (v : Int) (cs : List (List Nat)) :
    ∀ (b : Option Nat) (bl : List Nat) (lb : Nat) (e : Event),
      e ∈ decodeLoop v b cs bl lb →
      e = Event.readChunk ∨ (∃ l, e = Event.writeChunk l) ∨
        (∃ n, e = Event.progressUpdate n) := by
  induction cs with
  | nil =>
    intro b bl lb e he
    simp only [decodeLoop, List.mem_cons] at he
    rcases he with he | he
    · exact Or.inl he
    · exact Or.inr (Or.inr ⟨_, by simpa using mem_obsIf he⟩)
  | cons c cs ih =>
    intro b bl lb e he
    by_cases hc : c = []
    · simp only [decodeLoop, if_pos hc, List.mem_cons] at he
      rcases he with he | he
      · exact Or.inl he
      · exact Or.inr (Or.inr ⟨_, by simpa using mem_obsIf he⟩)
    · simp only [decodeLoop, if_neg hc, List.mem_cons, List.mem_append] at he
      rcases he with he | (((he | he) | he) | he)
      · exact Or.inl he
      · exact Or.inr (Or.inr ⟨_, by simpa using mem_obsIf he⟩)
      · exact Or.inr (Or.inr ⟨_, by simpa using mem_obsIf he⟩)
      · exact Or.inr (Or.inl ⟨_, by simpa using he⟩)
      · by_cases hb : budgetExhausted (clipLocs b c).2 = true
        · rw [if_pos hb] at he
          simp at he
        · rw [if_neg hb] at he
          exact ih _ _ _ e he

theorem decodeLoop_readChunk_split (v : Int) (cs : List (List Nat)) :
    ∀ (n : Nat) (bl : List Nat) (lb : Nat) (a b : List Event),
      decodeLoop v (some n) cs bl lb = a ++ Event.readChunk :: b →
      recordsWritten a < n ∨ recordsWritten a = 0 := by
  induction cs with
  | nil =>
    intro n bl lb a b h
    simp only [decodeLoop] at h
    rw [obsIf_neg (by simp)] at h
    rcases a with _ | ⟨x, a⟩
    · exact Or.inr rfl
    · exfalso
      simp only [List.cons_append, List.cons.injEq] at h
      rcases h with ⟨h1, h2⟩
      cases a <;> simp at h2
  | cons c cs ih =>
    intro n bl lb a b h
    by_cases hc : c = []
    · simp only [decodeLoop, if_pos hc] at h
      rw [obsIf_neg (by simp)] at h
      rcases a with _ | ⟨x, a⟩
      · exact Or.inr rfl
      · exfalso
        simp only [List.cons_append, List.cons.injEq] at h
        rcases h with ⟨h1, h2⟩
        cases a <;> simp at h2
    · have hsnd := (clipLocs_some_sum c n).2
      have hsum := (clipLocs_some_sum c n).1
      simp only [decodeLoop, if_neg hc, hsnd] at h
      rcases a with _ | ⟨x, a⟩
      · exact Or.inr rfl
      · simp only [List.cons_append, List.cons.injEq] at h
        rcases h with ⟨hx, h⟩
        obtain ⟨a', ha, hrest⟩ := split_through _ _ _ _ (readChunk_notin_wrap _ _ _ _ _) h
        by_cases hb : budgetExhausted (some (n - min c.sum n)) = true
        · rw [if_pos hb] at hrest
          exfalso
          cases a' <;> simp at hrest
        · rw [if_neg hb] at hrest
          have hih := ih (n - min c.sum n) bl.tail _ a' b hrest
          have hb' : ¬(n - min c.sum n = 0) := by
            simpa [budgetExhausted] using hb
          have hrec : recordsWritten (x :: a) = min c.sum n + recordsWritten a' := by
            rw [ha, recordsWritten_cons, recordsWritten_append, recordsWritten_append,
              recordsWritten_append, recordsWritten_obsIf_progress,
              recordsWritten_obsIf_progress]
            simp only [recordsWritten, recordsOf, List.map_cons, List.map_nil,
              List.sum_cons, List.sum_nil, hsum]
            rw [← hx]
            simp [recordsOf]
          rw [hrec]
          rcases hih with hih | hih <;> omega

end BuildRaw

namespace BuildRaw

theorem flashCamRun_success_trace (env : Env) (args : Args)
    (h : (preflight args.overwrite 0 env.destGlobs).2 = none) :
    flashCamRun env args =
      (Event.selectStreamer "FlashCam" ::
        (obsIf (1 < args.verbosity) [Event.progressUpdate 0] ++
          (Event.openStream (effectiveBufferSize args.bufferSize args.nMax) (outStreamOf args) ::
            obsIf (1 < args.verbosity ∧ args.nMax = none)
              [Event.progressUpdate env.bytesAfterOpen])) ++
        (preflight args.overwrite 0 env.destGlobs).1 ++
        (Event.writeHeader env.headerData ::
          (decodeLoop args.verbosity args.nMax env.chunks env.bytesAfterChunk env.bytesAfterOpen ++
            (obsIf (0 < args.verbosity)
              [Event.summaryReport env.elapsed env.destSizes env.bytesTotal
                (env.bytesTotal / env.elapsed)] ++ [Event.finalize]))), none) := by
  unfold flashCamRun
  rw [h]

theorem flashCamRun_abort_trace (env : Env) (args : Args) (e : RunError)
    (h : (preflight args.overwrite 0 env.destGlobs).2 = some e) :
    flashCamRun env args =
      (Event.selectStreamer "FlashCam" ::
        (obsIf (1 < args.verbosity) [Event.progressUpdate 0] ++
          (Event.openStream (effectiveBufferSize args.bufferSize args.nMax) (outStreamOf args) ::
            obsIf (1 < args.verbosity ∧ args.nMax = none)
              [Event.progressUpdate env.bytesAfterOpen])) ++
        (preflight args.overwrite 0 env.destGlobs).1, some e) := by
  unfold flashCamRun
  rw [h]

theorem buildRaw_flashcam (env : Env) (args : Args) (hex : env.inExists = true)
    (ht : resolveStreamType args = some "FlashCam") (hbs : ¬args.bufferSize < 1) :
    buildRaw env args =
      (obsIf (0 < args.verbosity) [Event.consoleLine startMsg] ++ (flashCamRun env args).1,
        (flashCamRun env args).2) := by
  unfold buildRaw
  rw [ht, hex]
  simp only [Bool.true_eq_false, if_false, if_neg hbs]
  have hd : dispatch "FlashCam" = none := rfl
  rw [hd]

theorem buildRaw_success_facts (env : Env) (args : Args)
    (h : (buildRaw env args).2 = none) :
    env.inExists = true ∧ resolveStreamType args = some "FlashCam" ∧
      ¬args.bufferSize < 1 ∧ (preflight args.overwrite 0 env.destGlobs).2 = none := by
  by_cases hex : env.inExists = false
  · simp [buildRaw, hex] at h
  · have hex' : env.inExists = true := by simpa using hex
    rcases ht : resolveStreamType args with _ | t
    · simp [buildRaw, hex', ht] at h
    · by_cases hbs : args.bufferSize < 1
      · simp [buildRaw, hex', ht, hbs] at h
      · rcases hd : dispatch t with _ | e
        · have htf : t = "FlashCam" := (dispatch_eq_none_iff t).mp hd
          subst htf
          rcases hpf : (preflight args.overwrite 0 env.destGlobs).2 with _ | e
          · exact ⟨hex', rfl, hbs, rfl⟩
          · rw [buildRaw_flashcam env args hex' ht hbs] at h
            rw [flashCamRun_abort_trace env args e hpf] at h
            simp at h
        · simp [buildRaw, hex', ht, hbs, hd] at h

end BuildRaw


namespace BuildRaw

theorem takeWhile_append_of_mem (c : Char) (l1 l2 : List Char) (h : c ∈ l1) :
    (l1 ++ l2).takeWhile (fun x => x ≠ c) = l1.takeWhile (fun x => x ≠ c) := by
  induction l1 with
  | nil => simp at h
  | cons a l1 ih =>
    by_cases hac : a = c
    · rw [List.cons_append, List.takeWhile_cons_of_neg (by simp [hac]),
        List.takeWhile_cons_of_neg (by simp [hac])]
    · have hc : c ∈ l1 := by
        rcases List.mem_cons.mp h with h' | h'
        · exact absurd h'.symm hac
        · exact h'
      rw [List.cons_append, List.takeWhile_cons_of_pos (by simp [hac]),
        List.takeWhile_cons_of_pos (by simp [hac]), ih hc]

theorem takeWhile_append_all (c : Char) (l1 l2 : List Char) (h : ∀ x ∈ l1, x ≠ c) :
    (l1 ++ l2).takeWhile (fun x => x ≠ c) = l1 ++ l2.takeWhile (fun x => x ≠ c) := by
  induction l1 with
  | nil => simp
  | cons a l1 ih =>
    have ha : a ≠ c := h a (by simp)
    rw [List.cons_append, List.takeWhile_cons_of_pos (by simp [ha]),
      ih (fun x hx => h x (by simp [hx])), List.cons_append]

theorem dropWhile_append_of_mem (c : Char) (l1 l2 : List Char) (h : c ∈ l1) :
    (l1 ++ l2).dropWhile (fun x => x ≠ c) = l1.dropWhile (fun x => x ≠ c) ++ l2 := by
  induction l1 with
  | nil => simp at h
  | cons a l1 ih =>
    by_cases hac : a = c
    · rw [List.cons_append, List.dropWhile_cons_of_neg (by simp [hac]),
        List.dropWhile_cons_of_neg (by simp [hac]), List.cons_append]
    · have hc : c ∈ l1 := by
        rcases List.mem_cons.mp h with h' | h'
        · exact absurd h'.symm hac
        · exact h'
      rw [List.cons_append, List.dropWhile_cons_of_pos (by simp [hac]),
        List.dropWhile_cons_of_pos (by simp [hac]), ih hc]

theorem dropWhile_append_all (c : Char) (l1 l2 : List Char) (h : ∀ x ∈ l1, x ≠ c) :
    (l1 ++ l2).dropWhile (fun x => x ≠ c) = l2.dropWhile (fun x => x ≠ c) := by
  induction l1 with
  | nil => simp
  | cons a l1 ih =>
    have ha : a ≠ c := h a (by simp)
    rw [List.cons_append, List.dropWhile_cons_of_pos (by simp [ha]),
      ih (fun x hx => h x (by simp [hx]))]

theorem rfindIdx_eq_none_iff (c : Char) (s : List Char) : rfindIdx c s = none ↔ c ∉ s := by
  induction s with
  | nil => simp [rfindIdx]
  | cons a as ih =>
    simp only [rfindIdx]
    rcases h : rfindIdx c as with _ | i
    · have hnotin : c ∉ as := ih.mp h
      by_cases hac : a = c
      · subst hac
        simp
      · have hca : ¬c = a := fun hh => hac hh.symm
        simp [if_neg hac, hca, hnotin]
    · have hin : c ∈ as := by
        by_contra hco
        rw [ih.mpr hco] at h
        exact Option.noConfusion h
      simp [hin]

theorem rfindIdx_drop (c : Char) (s : List Char) :
    ∀ i, rfindIdx c s = some i →
      s.drop (i + 1) = (s.reverse.takeWhile (fun x => x ≠ c)).reverse := by
  induction s with
  | nil => intro i h; simp [rfindIdx] at h
  | cons a as ih =>
    intro i h
    simp only [rfindIdx] at h
    rcases hr : rfindIdx c as with _ | j
    · rw [hr] at h
      by_cases hac : a = c
      · rw [if_pos hac] at h
        have hi : i = 0 := by simpa using h.symm
        subst hi
        have hnotin : c ∉ as := (rfindIdx_eq_none_iff c as).mp hr
        have hall : ∀ x ∈ as.reverse, x ≠ c := fun x hx hxc =>
          hnotin (hxc ▸ (List.mem_reverse).mp hx)
        simp only [List.drop_succ_cons, List.drop_zero, List.reverse_cons, hac]
        rw [takeWhile_append_all c as.reverse [c] hall]
        simp
      · rw [if_neg hac] at h
        exact Option.noConfusion h
    · rw [hr] at h
      have hi : i = j + 1 := by simpa using h.symm
      subst hi
      have hin : c ∈ as := by
        by_contra hco
        rw [(rfindIdx_eq_none_iff c as).mpr hco] at hr
        exact Option.noConfusion hr
      simp only [List.drop_succ_cons, List.reverse_cons]
      rw [takeWhile_append_of_mem c as.reverse [a] (by simpa using hin)]
      exact ih j hr

theorem rfindIdx_take (c : Char) (s : List Char) :
    ∀ i, rfindIdx c s = some i →
      s.take i = ((s.reverse.dropWhile (fun x => x ≠ c)).drop 1).reverse := by
  induction s with
  | nil => intro i h; simp [rfindIdx] at h
  | cons a as ih =>
    intro i h
    simp only [rfindIdx] at h
    rcases hr : rfindIdx c as with _ | j
    · rw [hr] at h
      by_cases hac : a = c
      · rw [if_pos hac] at h
        have hi : i = 0 := by simpa using h.symm
        subst hi
        have hnotin : c ∉ as := (rfindIdx_eq_none_iff c as).mp hr
        have hall : ∀ x ∈ as.reverse, x ≠ c := fun x hx hxc =>
          hnotin (hxc ▸ (List.mem_reverse).mp hx)
        simp only [List.take_zero, List.reverse_cons, hac]
        rw [dropWhile_append_all c as.reverse [c] hall]
        simp [List.dropWhile_cons]
      · rw [if_neg hac] at h
        exact Option.noConfusion h
    · rw [hr] at h
      have hi : i = j + 1 := by simpa using h.symm
      subst hi
      have hin : c ∈ as := by
        by_contra hco
        rw [(rfindIdx_eq_none_iff c as).mpr hco] at hr
        exact Option.noConfusion hr
      simp only [List.take_succ_cons, List.reverse_cons]
      rw [dropWhile_append_of_mem c as.reverse [a] (by simpa using hin)]
      have hne : as.reverse.dropWhile (fun x => x ≠ c) ≠ [] := by
        intro hnil
        rw [List.dropWhile_eq_nil_iff] at hnil
        have := hnil c (by simpa using hin)
        simp at this
      rw [List.drop_append_of_le_length (by
        rcases List.exists_cons_of_ne_nil hne with ⟨y, ys, hy⟩
        rw [hy]
        simp)]
      rw [List.reverse_append]
      simp only [List.reverse_cons, List.reverse_nil, List.nil_append, List.singleton_append,
        List.cons.injEq, true_and]
      exact ih j hr

end BuildRaw

namespace BuildRaw

theorem inferStreamType_iff_ext (s : List Char) :
    inferStreamType s = some "FlashCam" ↔ extOf s = some ['f', 'c', 'i', 'o'] := by
  unfold inferStreamType extOf
  rcases h : rfindIdx '.' s with _ | i
  · have hno : '.' ∉ s := (rfindIdx_eq_none_iff _ s).mp h
    simp [hno]
  · have hin : '.' ∈ s := by
      by_contra hco
      rw [(rfindIdx_eq_none_iff _ s).mpr hco] at h
      exact Option.noConfusion h
    have hd := rfindIdx_drop '.' s i h
    rw [if_pos hin, ← hd]
    by_cases he : s.drop (i + 1) = ['f', 'c', 'i', 'o']
    · simp [he]
    · simp [he]

theorem defaultOutSpec_eq_stem (s : List Char) :
    defaultOutSpec s = specStem s ++ ['.', 'l', 'h', '5'] := by
  unfold defaultOutSpec specStem
  rcases h : rfindIdx '.' s with _ | i
  · have hno : '.' ∉ s := (rfindIdx_eq_none_iff _ s).mp h
    simp [hno]
  · have hin : '.' ∈ s := by
      by_contra hco
      rw [(rfindIdx_eq_none_iff _ s).mpr hco] at h
      exact Option.noConfusion h
    rw [if_pos hin]
    dsimp only
    rw [rfindIdx_take '.' s i h]

/-- C4: with `in_stream_type` omitted, the stream type is inferred from the
file extension: the inference yields the FlashCam streamer exactly when the
suffix after the last `'.'` is `fcio`, and when the inference fails (no dot,
or any other extension) the run aborts with the unknown-format condition
having performed no open, no decode and no output action. -/
theorem c4_extension_inference (env : Env) (args : Args)
    (hex : env.inExists = true) (hn : args.inStreamType = none) :
    (inferStreamType args.inStream = some "FlashCam" ↔
      extOf args.inStream = some ['f', 'c', 'i', 'o']) ∧
    (inferStreamType args.inStream = none →
      (buildRaw env args).2 = some RunError.unknownFormat ∧
        effects (buildRaw env args).1 = []) := by
  refine ⟨inferStreamType_iff_ext args.inStream, fun hinf => ?_⟩
  have hrt : resolveStreamType args = none := by
    simp [resolveStreamType, hn, hinf]
  constructor
  · simp [buildRaw, hex, hrt]
  · simp [buildRaw, hex, hrt, effects, isObs]

def args4w : Args :=
  { inStream := "run0.orca".toList, inStreamType := none, outSpec := OutSpec.unspecified,
    bufferSize := 8192, nMax := none, overwrite := true, verbosity := 2 }

/-- Witness for C4 at a concrete input (`run0.orca`, unrecognized extension). -/
theorem c4_extension_inference_witness :
    envOk.inExists = true ∧ args4w.inStreamType = none ∧
    ((inferStreamType args4w.inStream = some "FlashCam" ↔
      extOf args4w.inStream = some ['f', 'c', 'i', 'o']) ∧
    (inferStreamType args4w.inStream = none →
      (buildRaw envOk args4w).2 = some RunError.unknownFormat ∧
        effects (buildRaw envOk args4w).1 = [])) :=
  ⟨rfl, rfl, c4_extension_inference envOk args4w rfl rfl⟩

/-- C6: with `out_spec` omitted, the single synthesized destination is the
input name with the suffix after its last `'.'` replaced by `.lh5` (checked
against an independent spec-side computation of the stem), the stream is
opened against exactly that destination, and the (spec-modelled) default
buffer library routes every stream identity to it. -/
theorem c6_default_out_spec (env : Env) (args : Args)
    (hex : env.inExists = true) (ht : resolveStreamType args = some "FlashCam")
    (hbs : ¬args.bufferSize < 1) (ho : args.outSpec = OutSpec.unspecified) :
    (∀ s, defaultOutSpec s = specStem s ++ ['.', 'l', 'h', '5']) ∧
    (∃ b, Event.openStream b (defaultOutSpec args.inStream) ∈ (buildRaw env args).1) ∧
    (∀ sid, defaultRbLib (defaultOutSpec args.inStream) sid =
      defaultOutSpec args.inStream) := by
  refine ⟨fun s => defaultOutSpec_eq_stem s, ?_, fun sid => rfl⟩
  have hos : outStreamOf args = defaultOutSpec args.inStream := by
    simp [outStreamOf, ho]
  rw [buildRaw_flashcam env args hex ht hbs]
  refine ⟨effectiveBufferSize args.bufferSize args.nMax, ?_⟩
  rcases hpf : (preflight args.overwrite 0 env.destGlobs).2 with _ | e
  · rw [flashCamRun_success_trace env args hpf]
    simp [hos, List.mem_append]
  · rw [flashCamRun_abort_trace env args e hpf]
    simp [hos, List.mem_append]

def args6w : Args :=
  { inStream := "day1/run0.fcio".toList, inStreamType := none, outSpec := OutSpec.unspecified,
    bufferSize := 8192, nMax := none, overwrite := true, verbosity := 2 }

/-- Witness for C6 at a concrete input (`day1/run0.fcio`). -/
theorem c6_default_out_spec_witness :
    envOk.inExists = true ∧ resolveStreamType args6w = some "FlashCam" ∧
    defaultOutSpec args6w.inStream = specStem args6w.inStream ++ ['.', 'l', 'h', '5'] ∧
    (∃ b, Event.openStream b (defaultOutSpec args6w.inStream) ∈ (buildRaw envOk args6w).1) ∧
    defaultRbLib (defaultOutSpec args6w.inStream) 3 = defaultOutSpec args6w.inStream :=
  ⟨rfl, by decide,
    (c6_default_out_spec envOk args6w rfl (by decide) (by decide) rfl).1 args6w.inStream,
    (c6_default_out_spec envOk args6w rfl (by decide) (by decide) rfl).2.1,
    (c6_default_out_spec envOk args6w rfl (by decide) (by decide) rfl).2.2 3⟩

end BuildRaw

namespace BuildRaw

theorem mem_obsIf_iff {e : Event} (c : Prop) [Decidable c] (evs : List Event) :
    e ∈ obsIf c evs ↔ c ∧ e ∈ evs := by
  unfold obsIf
  split <;> simp [*]

theorem flashCamRun_mem (env : Env) (args : Args) (e : Event)
    (hm : e ∈ (flashCamRun env args).1) :
    e = Event.selectStreamer "FlashCam" ∨
    (∃ n, e = Event.progressUpdate n) ∨
    e = Event.openStream (effectiveBufferSize args.bufferSize args.nMax) (outStreamOf args) ∨
    e ∈ (preflight args.overwrite 0 env.destGlobs).1 ∨
    e = Event.writeHeader env.headerData ∨
    e ∈ decodeLoop args.verbosity args.nMax env.chunks env.bytesAfterChunk env.bytesAfterOpen ∨
    e = Event.summaryReport env.elapsed env.destSizes env.bytesTotal
      (env.bytesTotal / env.elapsed) ∨
    e = Event.finalize := by
  rcases hpf : (preflight args.overwrite 0 env.destGlobs).2 with _ | er
  · rw [flashCamRun_success_trace env args hpf] at hm
    dsimp only at hm
    simp only [List.mem_cons, List.mem_append, mem_obsIf_iff, List.mem_singleton] at hm
    aesop
  · rw [flashCamRun_abort_trace env args er hpf] at hm
    dsimp only at hm
    simp only [List.mem_cons, List.mem_append, mem_obsIf_iff, List.mem_singleton] at hm
    aesop

theorem flashCamRun_abort_mem (env : Env) (args : Args) (er : RunError)
    (hpf : (preflight args.overwrite 0 env.destGlobs).2 = some er) (e : Event)
    (hm : e ∈ (flashCamRun env args).1) :
    e = Event.selectStreamer "FlashCam" ∨
    (∃ n, e = Event.progressUpdate n) ∨
    e = Event.openStream (effectiveBufferSize args.bufferSize args.nMax) (outStreamOf args) ∨
    e ∈ (preflight args.overwrite 0 env.destGlobs).1 := by
  rw [flashCamRun_abort_trace env args er hpf] at hm
  dsimp only at hm
  simp only [List.mem_cons, List.mem_append, mem_obsIf_iff, List.mem_singleton] at hm
  aesop

/-- C10: every explicit `in_stream_type` other than `'FlashCam'` — the
documented `'ORCA'`, `'LlamaDaq'`, `'Compass'`, `'MGDO'` as well as any
unrecognized string — makes `build_raw` return before opening the input
stream: the trace contains no non-observational event at all (no open, no
read, no write, no delete) and the run does not complete normally. -/
theorem c10_non_flashcam_no_effects (env : Env) (args : Args) (t : String)
    (ht : args.inStreamType = some t) (hne : t ≠ "FlashCam") :
    effects (buildRaw env args).1 = [] ∧ (buildRaw env args).2 ≠ none := by
  have hrt : resolveStreamType args = some t := by simp [resolveStreamType, ht]
  by_cases hex : env.inExists = false
  · simp [buildRaw, hex, effects, isObs]
  · have hex' : env.inExists = true := by simpa using hex
    by_cases hbs : args.bufferSize < 1
    · simp [buildRaw, hex', hrt, hbs, effects, isObs]
    · rcases hd : dispatch t with _ | e
      · exact absurd ((dispatch_eq_none_iff t).mp hd) hne
      · constructor
        · simp only [buildRaw, hex', hrt, hbs, hd]
          simp only [Bool.true_eq_false, if_false, if_neg hbs]
          rw [effects_append, effects_obsIf_console]
          simp [effects, isObs]
        · simp [buildRaw, hex', hrt, hbs, hd]

def args10w : Args :=
  { inStream := "run0.fcio".toList, inStreamType := some "ORCA", outSpec := OutSpec.unspecified,
    bufferSize := 8192, nMax := none, overwrite := true, verbosity := 2 }

/-- Witness for C10 at the concrete type `'ORCA'`. -/
theorem c10_non_flashcam_no_effects_witness :
    args10w.inStreamType = some "ORCA" ∧ ("ORCA" : String) ≠ "FlashCam" ∧
    (effects (buildRaw envOk args10w).1 = [] ∧ (buildRaw envOk args10w).2 ≠ none) :=
  ⟨rfl, by decide, c10_non_flashcam_no_effects envOk args10w "ORCA" rfl (by decide)⟩

def env2c : Env :=
  { inExists := true, inStreamSize := 100, headerData := 7, destGlobs := [1, 2],
    chunks := [[2], [3]], bytesAfterOpen := 10, bytesAfterChunk := [40, 70, 100],
    destSizes := [64], elapsed := 2, bytesTotal := 100 }

def args2c : Args :=
  { inStream := "run0.fcio".toList, inStreamType := some "FlashCam", outSpec := OutSpec.unspecified,
    bufferSize := 8192, nMax := none, overwrite := true, verbosity := 0 }

/-- Counterexample to C2: with two destinations — the first pre-existing
(one glob match) and the second a pattern with two glob matches — and
`overwrite=true`, the pre-flight loop deletes the first destination and only
then aborts on the second.  The abort therefore does NOT leave all
destinations untouched: the claim's "ALL destinations are examined before
any single one is modified" fails on the code, which interleaves deletion
with checking. -/
theorem c2_delete_before_abort_cex :
    (buildRaw env2c args2c).2 = some RunError.multipleMatches ∧
      Event.deleteDest 0 ∈ (buildRaw env2c args2c).1 := by
  constructor
  · decide
  · decide

/-- C2 (amended): deletion happens only when overwrite is permitted: with
`overwrite=false` no run of `build_raw` ever deletes any destination, so an
abort of the pre-flight check with `overwrite=false` leaves every
destination untouched.  (With `overwrite=true`, destinations checked before
an aborting one may already have been deleted, per the counterexample.) -/
theorem c2_no_delete_without_overwrite (env : Env) (args : Args)
    (how : args.overwrite = false) (i : Nat) :
    Event.deleteDest i ∉ (buildRaw env args).1 := by
  intro hmem
  by_cases hex : env.inExists = false
  · simp [buildRaw, hex] at hmem
  · have hex' : env.inExists = true := by simpa using hex
    rcases ht : resolveStreamType args with _ | t
    · simp [buildRaw, hex', ht] at hmem
    · by_cases hbs : args.bufferSize < 1
      · simp [buildRaw, hex', ht, hbs] at hmem
      · rcases hd : dispatch t with _ | e
        · have htf := (dispatch_eq_none_iff t).mp hd
          subst htf
          rw [buildRaw_flashcam env args hex' ht hbs] at hmem
          dsimp only at hmem
          rcases List.mem_append.mp hmem with hm | hm
          · exact absurd (mem_obsIf hm) (by simp)
          · rcases flashCamRun_mem env args _ hm with hk | hk | hk | hk | hk | hk | hk | hk
            · simp at hk
            · rcases hk with ⟨n, hk⟩
              simp at hk
            · simp at hk
            · rw [how] at hk
              exact preflight_no_delete env.destGlobs 0 i hk
            · simp at hk
            · rcases decodeLoop_event_kinds _ _ _ _ _ _ hk with hk | ⟨l, hk⟩ | ⟨n, hk⟩ <;>
                simp at hk
            · simp at hk
            · simp at hk
        · simp [buildRaw, hex', ht, hbs, hd] at hmem
          exact absurd (mem_obsIf hmem) (by simp)

end BuildRaw

namespace BuildRaw

def args2w : Args :=
  { inStream := "run0.fcio".toList, inStreamType := some "FlashCam", outSpec := OutSpec.unspecified,
    bufferSize := 8192, nMax := none, overwrite := false, verbosity := 0 }

/-- Witness for C2 (amended) at a concrete run with `overwrite=false`. -/
theorem c2_no_delete_without_overwrite_witness :
    args2w.overwrite = false ∧ Event.deleteDest 0 ∉ (buildRaw env2c args2w).1 :=
  ⟨rfl, c2_no_delete_without_overwrite env2c args2w rfl 0⟩

def env3c : Env :=
  { inExists := true, inStreamSize := 100, headerData := 7, destGlobs := [2, 1],
    chunks := [[2], [3]], bytesAfterOpen := 10, bytesAfterChunk := [40, 70, 100],
    destSizes := [64], elapsed := 2, bytesTotal := 100 }

def args3c : Args :=
  { inStream := "run0.fcio".toList, inStreamType := some "FlashCam", outSpec := OutSpec.unspecified,
    bufferSize := 8192, nMax := none, overwrite := false, verbosity := 0 }

/-- Counterexample to C3: `overwrite=false` and the second destination exists
on disk (one glob match), but the first destination is a pattern matching two
files, so the run aborts with the multiple-match condition, not with
`OutputExistsError` as the claim states.  (The abort does still happen before
any output is written.) -/
theorem c3_abort_reason_cex :
    env3c.destGlobs = [2, 1] ∧ args3c.overwrite = false ∧
    (buildRaw env3c args3c).2 = some RunError.multipleMatches ∧
    (buildRaw env3c args3c).2 ≠ some RunError.outputExists := by
  refine ⟨rfl, rfl, by decide, by decide⟩

/-- C3 (amended): with `overwrite=false`, when at least one destination exists
on disk and no destination pattern matches more than one file, `build_raw`
aborts with `OutputExistsError` before any output action: the header is never
written, nothing is deleted, and no chunk is read or written.  (If some
destination pattern matches multiple files, the run still aborts before any
output, but with the multiple-match condition instead.) -/
theorem c3_abort_on_existing_output (env : Env) (args : Args)
    (hex : env.inExists = true) (ht : resolveStreamType args = some "FlashCam")
    (hbs : ¬args.bufferSize < 1) (how : args.overwrite = false)
    (hle : ∀ g ∈ env.destGlobs, g ≤ 1) (hsome : ∃ g ∈ env.destGlobs, g = 1) :
    (buildRaw env args).2 = some RunError.outputExists ∧
    (∀ h, Event.writeHeader h ∉ (buildRaw env args).1) ∧
    (∀ i, Event.deleteDest i ∉ (buildRaw env args).1) ∧
    Event.readChunk ∉ (buildRaw env args).1 ∧
    (∀ l, Event.writeChunk l ∉ (buildRaw env args).1) := by
  have hpf : (preflight args.overwrite 0 env.destGlobs).2 = some RunError.outputExists := by
    rw [how]
    exact preflight_abort_output_exists env.destGlobs 0 hle hsome
  have htrace := buildRaw_flashcam env args hex ht hbs
  have hmem_char : ∀ e, e ∈ (buildRaw env args).1 →
      e = Event.selectStreamer "FlashCam" ∨ (∃ n, e = Event.progressUpdate n) ∨
      e = Event.openStream (effectiveBufferSize args.bufferSize args.nMax) (outStreamOf args) ∨
      (∃ s, e = Event.consoleLine s) ∨
      e ∈ (preflight args.overwrite 0 env.destGlobs).1 := by
    intro e he
    rw [htrace] at he
    dsimp only at he
    rcases List.mem_append.mp he with hm | hm
    · exact Or.inr (Or.inr (Or.inr (Or.inl ⟨_, by simpa using mem_obsIf hm⟩)))
    · rcases flashCamRun_abort_mem env args _ hpf e hm with hk | hk | hk | hk
      · exact Or.inl hk
      · exact Or.inr (Or.inl hk)
      · exact Or.inr (Or.inr (Or.inl hk))
      · exact Or.inr (Or.inr (Or.inr (Or.inr hk)))
  refine ⟨?_, ?_, ?_, ?_, ?_⟩
  · rw [htrace]
    dsimp only
    rw [flashCamRun_abort_trace env args _ hpf]
  · intro h hmem
    rcases hmem_char _ hmem with hk | ⟨n, hk⟩ | hk | ⟨s, hk⟩ | hk
    · simp at hk
    · simp at hk
    · simp at hk
    · simp at hk
    · rcases preflight_event_kinds _ _ _ _ hk with ⟨j, hk⟩ | ⟨j, hk⟩ | ⟨s, hk⟩ <;> simp at hk
  · intro i hmem
    rcases hmem_char _ hmem with hk | ⟨n, hk⟩ | hk | ⟨s, hk⟩ | hk
    · simp at hk
    · simp at hk
    · simp at hk
    · simp at hk
    · rw [how] at hk
      exact preflight_no_delete env.destGlobs 0 i hk
  · intro hmem
    rcases hmem_char _ hmem with hk | ⟨n, hk⟩ | hk | ⟨s, hk⟩ | hk
    · simp at hk
    · simp at hk
    · simp at hk
    · simp at hk
    · rcases preflight_event_kinds _ _ _ _ hk with ⟨j, hk⟩ | ⟨j, hk⟩ | ⟨s, hk⟩ <;> simp at hk
  · intro l hmem
    rcases hmem_char _ hmem with hk | ⟨n, hk⟩ | hk | ⟨s, hk⟩ | hk
    · simp at hk
    · simp at hk
    · simp at hk
    · simp at hk
    · rcases preflight_event_kinds _ _ _ _ hk with ⟨j, hk⟩ | ⟨j, hk⟩ | ⟨s, hk⟩ <;> simp at hk

def env3w : Env :=
  { inExists := true, inStreamSize := 100, headerData := 7, destGlobs := [0, 1],
    chunks := [[2], [3]], bytesAfterOpen := 10, bytesAfterChunk := [40, 70, 100],
    destSizes := [64], elapsed := 2, bytesTotal := 100 }

/-- Witness for C3 (amended): two plain destinations, the second pre-existing,
`overwrite=false`. -/
theorem c3_abort_on_existing_output_witness :
    (∀ g ∈ env3w.destGlobs, g ≤ 1) ∧ (∃ g ∈ env3w.destGlobs, g = 1) ∧
    (buildRaw env3w args3c).2 = some RunError.outputExists ∧
    Event.writeHeader env3w.headerData ∉ (buildRaw env3w args3c).1 ∧
    Event.deleteDest 1 ∉ (buildRaw env3w args3c).1 ∧
    Event.readChunk ∉ (buildRaw env3w args3c).1 ∧
    Event.writeChunk [2] ∉ (buildRaw env3w args3c).1 :=
  ⟨by decide, by decide,
    (c3_abort_on_existing_output env3w args3c rfl (by decide) (by decide) rfl
      (by decide) (by decide)).1,
    (c3_abort_on_existing_output env3w args3c rfl (by decide) (by decide) rfl
      (by decide) (by decide)).2.1 env3w.headerData,
    (c3_abort_on_existing_output env3w args3c rfl (by decide) (by decide) rfl
      (by decide) (by decide)).2.2.1 1,
    (c3_abort_on_existing_output env3w args3c rfl (by decide) (by decide) rfl
      (by decide) (by decide)).2.2.2.1,
    (c3_abort_on_existing_output env3w args3c rfl (by decide) (by decide) rfl
      (by decide) (by decide)).2.2.2.2 [2]⟩

end BuildRaw

namespace BuildRaw

theorem buildRaw_openStream_val (env : Env) (args : Args) (b : Int) (os : List Char)
    (hmem : Event.openStream b os ∈ (buildRaw env args).1) :
    b = effectiveBufferSize args.bufferSize args.nMax := by
  by_cases hex : env.inExists = false
  · simp [buildRaw, hex] at hmem
  · have hex' : env.inExists = true := by simpa using hex
    rcases ht : resolveStreamType args with _ | t
    · simp [buildRaw, hex', ht] at hmem
    · by_cases hbs : args.bufferSize < 1
      · simp [buildRaw, hex', ht, hbs] at hmem
      · rcases hd : dispatch t with _ | e
        · have htf := (dispatch_eq_none_iff t).mp hd
          subst htf
          rw [buildRaw_flashcam env args hex' ht hbs] at hmem
          dsimp only at hmem
          rcases List.mem_append.mp hmem with hm | hm
          · exact absurd (mem_obsIf hm) (by simp)
          · rcases flashCamRun_mem env args _ hm with hk | ⟨n, hk⟩ | hk | hk | hk | hk | hk | hk
            · simp at hk
            · simp at hk
            · injection hk with h1 h2
            · rcases preflight_event_kinds _ _ _ _ hk with ⟨j, hk⟩ | ⟨j, hk⟩ | ⟨s, hk⟩ <;>
                simp at hk
            · simp at hk
            · rcases decodeLoop_event_kinds _ _ _ _ _ _ hk with hk | ⟨l, hk⟩ | ⟨n, hk⟩ <;>
                simp at hk
            · simp at hk
            · simp at hk
        · simp [buildRaw, hex', ht, hbs, hd] at hmem
          exact absurd (mem_obsIf hmem) (by simp)

def args9c : Args :=
  { inStream := "run0.fcio".toList, inStreamType := some "FlashCam", outSpec := OutSpec.unspecified,
    bufferSize := 8192, nMax := some 0, overwrite := true, verbosity := 0 }

/-- Counterexample to C9: with `buffer_size = 8192` and `n_max = 0` the
buffer-size validation passes (8192 is not less than 1) and the clipping
`buffer_size = n_max` then makes the streamer be opened with buffer size 0,
violating the claimed invariant `1 <= size <= n_max` for the effective size
passed to `open_stream`. -/
theorem c9_zero_buffer_cex :
    args9c.bufferSize = 8192 ∧ args9c.nMax = some 0 ∧
    Event.openStream 0 (outStreamOf args9c) ∈ (buildRaw envOk args9c).1 ∧
    ¬(1 ≤ (0 : Int)) := by
  refine ⟨rfl, rfl, by decide, by decide⟩

/-- C9 (amended): `buffer_size < 1` aborts before the stream is opened and
before any output action (the trace is purely observational); and whenever
`n_max` is finite and at least 1, the size actually passed to `open_stream`
is `min(buffer_size, n_max)`, which satisfies `1 <= size <= n_max`.  (When
`n_max < 1`, the streamer is opened with size `n_max` itself, which is how
the original claim fails.) -/
theorem c9_buffer_size_bounds (env : Env) (args : Args) (m : Nat) :
    (args.bufferSize < 1 →
      effects (buildRaw env args).1 = [] ∧ (buildRaw env args).2 ≠ none) ∧
    (args.nMax = some m → 1 ≤ m → ¬args.bufferSize < 1 →
      ∀ b os, Event.openStream b os ∈ (buildRaw env args).1 →
        b = min args.bufferSize (m : Int) ∧ 1 ≤ b ∧ b ≤ (m : Int)) := by
  constructor
  · intro hbs
    by_cases hex : env.inExists = false
    · simp [buildRaw, hex, effects, isObs]
    · have hex' : env.inExists = true := by simpa using hex
      rcases ht : resolveStreamType args with _ | t
      · simp [buildRaw, hex', ht, effects, isObs]
      · simp [buildRaw, hex', ht, hbs, effects, isObs]
  · intro hm h1m hbs b os hmem
    have hb := buildRaw_openStream_val env args b os hmem
    rw [hm] at hb
    have h1bs : 1 ≤ args.bufferSize := by omega
    simp only [effectiveBufferSize] at hb
    rw [hb]
    split_ifs with hgt
    · refine ⟨by omega, by omega, by omega⟩
    · refine ⟨by omega, by omega, by omega⟩

def args9w : Args :=
  { inStream := "run0.fcio".toList, inStreamType := some "FlashCam", outSpec := OutSpec.unspecified,
    bufferSize := 8192, nMax := some 5, overwrite := true, verbosity := 0 }

/-- Witness for C9 (amended): with `n_max = 5 >= 1` and `buffer_size = 8192`
the streamer is opened with size `min(8192, 5) = 5` and `1 <= 5 <= 5`. -/
theorem c9_buffer_size_bounds_witness :
    args9w.nMax = some 5 ∧ 1 ≤ 5 ∧ ¬args9w.bufferSize < 1 ∧
    Event.openStream 5 (outStreamOf args9w) ∈ (buildRaw envOk args9w).1 ∧
    ((5 : Int) = min args9w.bufferSize (5 : Int) ∧ 1 ≤ (5 : Int) ∧ (5 : Int) ≤ (5 : Int)) :=
  ⟨rfl, by decide, by decide, by decide,
    (c9_buffer_size_bounds envOk args9w 5).2 rfl (by decide) (by decide) 5
      (outStreamOf args9w) (by decide)⟩

def args7c : Args :=
  { inStream := "run0.fcio".toList, inStreamType := some "FlashCam", outSpec := OutSpec.unspecified,
    bufferSize := 8192, nMax := none, overwrite := true, verbosity := 0 }

/-- Counterexample to C7: a run that completes without error but was invoked
with `verbosity = 0` produces no summary at all — `build_raw` only prints the
summary (it returns `None`), and only when `verbosity > 0`; so it is not the
case that every successful run returns/reports the summary statistics. -/
theorem c7_no_summary_quiet_cex :
    args7c.verbosity = 0 ∧ (buildRaw envOk args7c).2 = none ∧
    ((buildRaw envOk args7c).1.all fun e => !(isSummaryReport e)) = true := by
  refine ⟨rfl, by decide, by decide⟩

/-- C7 (amended): every run that completes without error and has
`verbosity > 0` prints the summary block carrying the elapsed time, the
per-destination output sizes, the total bytes converted and the throughput;
with `verbosity = 0` no summary is produced, and the function itself returns
no value either way. -/
theorem c7_summary_when_verbose (env : Env) (args : Args)
    (h : (buildRaw env args).2 = none) (hv : 0 < args.verbosity) :
    Event.summaryReport env.elapsed env.destSizes env.bytesTotal
      (env.bytesTotal / env.elapsed) ∈ (buildRaw env args).1 := by
  obtain ⟨hex, ht, hbs, hpf⟩ := buildRaw_success_facts env args h
  rw [buildRaw_flashcam env args hex ht hbs]
  dsimp only
  rw [flashCamRun_success_trace env args hpf]
  dsimp only
  simp [List.mem_append, mem_obsIf_iff, hv]

def args7w : Args :=
  { inStream := "run0.fcio".toList, inStreamType := some "FlashCam", outSpec := OutSpec.unspecified,
    bufferSize := 8192, nMax := none, overwrite := true, verbosity := 2 }

/-- Witness for C7 (amended) at a verbose successful run. -/
theorem c7_summary_when_verbose_witness :
    (buildRaw envOk args7w).2 = none ∧ 0 < args7w.verbosity ∧
    Event.summaryReport envOk.elapsed envOk.destSizes envOk.bytesTotal
      (envOk.bytesTotal / envOk.elapsed) ∈ (buildRaw envOk args7w).1 :=
  ⟨by decide, by decide, c7_summary_when_verbose envOk args7w (by decide) (by decide)⟩

end BuildRaw

namespace BuildRaw

theorem effects_nil : effects [] = [] := rfl

theorem effects_cons_not_obs {e : Event} (t : List Event) (h : isObs e = false) :
    effects (e :: t) = e :: effects t := by
  simp [effects, List.filter_cons, h]

/-- The abort condition of a run, independent of verbosity: what `buildRaw`
returns in its second component. -/
def buildRawResult (env : Env) (args : Args) : Option RunError :=
  if env.inExists = false then some RunError.inputNotFound
  else
    match resolveStreamType args with
    | none => some RunError.unknownFormat
    | some t =>
      if args.bufferSize < 1 then some RunError.badBufferSize
      else
        match dispatch t with
        | some e => some e
        | none => (preflight args.overwrite 0 env.destGlobs).2

/-- The non-observational events of a run, independent of verbosity. -/
def buildRawEffects (env : Env) (args : Args) : List Event :=
  if env.inExists = false then []
  else
    match resolveStreamType args with
    | none => []
    | some t =>
      if args.bufferSize < 1 then []
      else
        match dispatch t with
        | some _ => []
        | none =>
          ([Event.selectStreamer "FlashCam",
            Event.openStream (effectiveBufferSize args.bufferSize args.nMax) (outStreamOf args)] ++
            effects (preflight args.overwrite 0 env.destGlobs).1) ++
          (match (preflight args.overwrite 0 env.destGlobs).2 with
           | some _ => []
           | none =>
             Event.writeHeader env.headerData ::
               (decodeEffects args.nMax env.chunks ++ [Event.finalize]))

theorem flashCamRun_snd (env : Env) (args : Args) :
    (flashCamRun env args).2 = (preflight args.overwrite 0 env.destGlobs).2 := by
  rcases hpf : (preflight args.overwrite 0 env.destGlobs).2 with _ | e
  · rw [flashCamRun_success_trace env args hpf]
  · rw [flashCamRun_abort_trace env args e hpf]

theorem effects_flashCamRun (env : Env) (args : Args) :
    effects (flashCamRun env args).1 =
      ([Event.selectStreamer "FlashCam",
        Event.openStream (effectiveBufferSize args.bufferSize args.nMax) (outStreamOf args)] ++
        effects (preflight args.overwrite 0 env.destGlobs).1) ++
      (match (preflight args.overwrite 0 env.destGlobs).2 with
       | some _ => []
       | none =>
         Event.writeHeader env.headerData ::
           (decodeEffects args.nMax env.chunks ++ [Event.finalize])) := by
  rcases hpf : (preflight args.overwrite 0 env.destGlobs).2 with _ | e
  · rw [flashCamRun_success_trace env args hpf]
    dsimp only
    rw [effects_append, effects_append]
    rw [effects_cons_not_obs _ (by rfl)]
    rw [effects_append, effects_obsIf_progress]
    rw [effects_cons_not_obs _ (by rfl)]
    rw [effects_obsIf_progress]
    rw [effects_cons_not_obs _ (by rfl)]
    rw [effects_append, effects_append, effects_obsIf_summary]
    rw [effects_decodeLoop]
    rw [effects_cons_not_obs _ (by rfl), effects_nil]
    simp
  · rw [flashCamRun_abort_trace env args e hpf]
    dsimp only
    rw [effects_append]
    rw [effects_cons_not_obs _ (by rfl)]
    rw [effects_append, effects_obsIf_progress]
    rw [effects_cons_not_obs _ (by rfl)]
    rw [effects_obsIf_progress]
    simp

theorem buildRaw_effects_result (env : Env) (args : Args) :
    effects (buildRaw env args).1 = buildRawEffects env args ∧
      (buildRaw env args).2 = buildRawResult env args := by
  by_cases hex : env.inExists = false
  · constructor <;> simp [buildRaw, buildRawEffects, buildRawResult, hex, effects, isObs]
  · have hex' : env.inExists = true := by simpa using hex
    rcases ht : resolveStreamType args with _ | t
    · constructor <;> simp [buildRaw, buildRawEffects, buildRawResult, hex', ht, effects, isObs]
    · by_cases hbs : args.bufferSize < 1
      · constructor <;>
          simp [buildRaw, buildRawEffects, buildRawResult, hex', ht, hbs, effects, isObs]
      · rcases hd : dispatch t with _ | e
        · have htf := (dispatch_eq_none_iff t).mp hd
          subst htf
          constructor
          · rw [buildRaw_flashcam env args hex' ht hbs]
            dsimp only
            rw [effects_append, effects_obsIf_console, effects_flashCamRun]
            simp [buildRawEffects, hex', ht, hbs, hd]
          · rw [buildRaw_flashcam env args hex' ht hbs]
            dsimp only
            rw [flashCamRun_snd]
            simp [buildRawResult, hex', ht, hbs, hd]
        · constructor
          · simp only [buildRaw, hex', ht, hbs, hd]
            simp only [Bool.true_eq_false, if_false, if_neg hbs]
            rw [effects_append, effects_obsIf_console]
            simp [buildRawEffects, hex', ht, hbs, hd, effects, isObs]
          · simp [buildRaw, buildRawResult, hex', ht, hbs, hd]

/-- C8: two runs that differ only in the verbosity argument perform exactly
the same non-observational actions (opens, overwrite checks, deletions,
header/chunk writes, read_chunk calls) and end in the same condition; the
verbosity level and the streamer's byte counter feed only the printed
progress/summary events, which are filtered out by `effects`. -/
theorem c8_verbosity_noninterference (env : Env) (a : Args) (v1 v2 : Int) :
    effects (buildRaw env { a with verbosity := v1 }).1 =
      effects (buildRaw env { a with verbosity := v2 }).1 ∧
    (buildRaw env { a with verbosity := v1 }).2 =
      (buildRaw env { a with verbosity := v2 }).2 := by
  have h1 := buildRaw_effects_result env { a with verbosity := v1 }
  have h2 := buildRaw_effects_result env { a with verbosity := v2 }
  have e1 : buildRawEffects env { a with verbosity := v1 } =
      buildRawEffects env { a with verbosity := v2 } := rfl
  have e2 : buildRawResult env { a with verbosity := v1 } =
      buildRawResult env { a with verbosity := v2 } := rfl
  exact ⟨h1.1.trans (e1.trans h2.1.symm), h1.2.trans (e2.trans h2.2.symm)⟩

end BuildRaw

namespace BuildRaw

theorem recordsWritten_preflight (ow : Bool) (gs : List Nat) (i : Nat) :
    recordsWritten (preflight ow i gs).1 = 0 := by
  rw [recordsWritten]
  apply List.sum_eq_zero
  intro x hx
  rcases List.mem_map.mp hx with ⟨e, he, hrec⟩
  rcases preflight_event_kinds ow gs i e he with ⟨j, hk⟩ | ⟨j, hk⟩ | ⟨s, hk⟩ <;>
    simp [hk, recordsOf] at hrec ⊢ <;> omega

def env1c : Env :=
  { inExists := true, inStreamSize := 100, headerData := 7, destGlobs := [0],
    chunks := [[5]], bytesAfterOpen := 10, bytesAfterChunk := [40, 60],
    destSizes := [64], elapsed := 2, bytesTotal := 100 }

def args1c : Args :=
  { inStream := "run0.fcio".toList, inStreamType := some "FlashCam", outSpec := OutSpec.unspecified,
    bufferSize := 8192, nMax := some 0, overwrite := true, verbosity := 0 }

/-- Counterexample to C1: with `n_max = 0` the row budget is already
exhausted when the decoding loop starts, yet `read_chunk` is still called
once (the budget is only tested at the bottom of the loop), and a zero-row
chunk write is performed; so "no further read_chunk call is made once the
budget is exhausted" fails as stated.  (The headline equation still holds:
zero records are written.) -/
theorem c1_read_after_exhausted_budget_cex :
    args1c.nMax = some 0 ∧
    (buildRaw env1c args1c).1.count Event.readChunk = 1 ∧
    (buildRaw env1c args1c).2 = none := by
  refine ⟨rfl, by decide, by decide⟩

theorem decodeEffects_records_inf (cs : List (List Nat)) (hne : ∀ c ∈ cs, c ≠ []) :
    recordsWritten (decodeEffects none cs) = totalRecords cs := by
  induction cs with
  | nil => simp [decodeEffects, recordsWritten, recordsOf, totalRecords]
  | cons c cs ih =>
    have hc : c ≠ [] := hne c (by simp)
    simp only [decodeEffects, if_neg hc, clipLocs_none_eq]
    rw [if_neg (by simp [budgetExhausted])]
    rw [recordsWritten_cons, recordsWritten_cons, ih (fun x hx => hne x (by simp [hx]))]
    simp [recordsOf, totalRecords_cons]

theorem buildRaw_records (env : Env) (args : Args)
    (h : (buildRaw env args).2 = none) :
    recordsWritten (buildRaw env args).1 =
      recordsWritten (decodeEffects args.nMax env.chunks) := by
  obtain ⟨hex, ht, hbs, hpf⟩ := buildRaw_success_facts env args h
  rw [← recordsWritten_effects]
  rw [(buildRaw_effects_result env args).1]
  rw [buildRawEffects, hex]
  simp only [Bool.true_eq_false, if_false, ht, if_neg hbs]
  have hd : dispatch "FlashCam" = none := rfl
  rw [hd, hpf]
  dsimp only
  simp only [recordsWritten_append, recordsWritten_cons]
  rw [recordsWritten_effects, recordsWritten_preflight]
  simp [recordsWritten, recordsOf]

/-- C1 (amended): for every run that completes the decoding loop, the total
number of records handed to the sink equals `min(total records produced by
the streamer, n_max)`: with the default infinite `n_max` every produced
record is written, and with a finite budget `n` each buffer's fill cursor is
clipped to the remaining budget, the budget is decremented by exactly the
clipped amount, and the total equals `min(total, n)`.  Every `read_chunk`
call happens while the records written so far are below the budget, or while
nothing has been written yet (the latter covers the corner case of an
initial budget of zero, where one `read_chunk` call is still made before the
bottom-of-loop budget test fires). -/
theorem c1_records_clipped_to_budget (env : Env) (args : Args)
    (hne : ∀ c ∈ env.chunks, c ≠ [])
    (h : (buildRaw env args).2 = none) :
    (args.nMax = none →
      recordsWritten (buildRaw env args).1 = totalRecords env.chunks) ∧
    (∀ n, args.nMax = some n →
      recordsWritten (buildRaw env args).1 = min (totalRecords env.chunks) n ∧
      (∀ a b,
        decodeLoop args.verbosity args.nMax env.chunks env.bytesAfterChunk env.bytesAfterOpen =
          a ++ Event.readChunk :: b →
        recordsWritten a < n ∨ recordsWritten a = 0)) := by
  constructor
  · intro hn
    rw [buildRaw_records env args h, hn, decodeEffects_records_inf env.chunks hne]
  · intro n hn
    constructor
    · rw [buildRaw_records env args h, hn, decodeEffects_records env.chunks n hne]
    · intro a b hsplit
      rw [hn] at hsplit
      exact decodeLoop_readChunk_split args.verbosity env.chunks n _ _ a b hsplit

def args1w : Args :=
  { inStream := "run0.fcio".toList, inStreamType := some "FlashCam", outSpec := OutSpec.unspecified,
    bufferSize := 8192, nMax := some 3, overwrite := true, verbosity := 2 }

def args1wInf : Args :=
  { inStream := "run0.fcio".toList, inStreamType := some "FlashCam", outSpec := OutSpec.unspecified,
    bufferSize := 8192, nMax := none, overwrite := true, verbosity := 2 }

/-- Witness for C1 (amended): two chunks of 2 and 3 records hand exactly
`min(5, 3) = 3` records to the sink under a budget of 3, and all
`5 = min(5, inf)` records under the default infinite budget. -/
theorem c1_records_clipped_to_budget_witness :
    (∀ c ∈ envOk.chunks, c ≠ []) ∧ (buildRaw envOk args1w).2 = none ∧
    recordsWritten (buildRaw envOk args1w).1 = 3 ∧
    args1wInf.nMax = none ∧ (buildRaw envOk args1wInf).2 = none ∧
    recordsWritten (buildRaw envOk args1wInf).1 = 5 := by
  refine ⟨by decide, by decide, ?_, rfl, by decide, ?_⟩
  · rw [((c1_records_clipped_to_budget envOk args1w (by decide) (by decide)).2 3 rfl).1]
    decide
  · rw [(c1_records_clipped_to_budget envOk args1wInf (by decide) (by decide)).1 rfl]
    decide

/-- The phase structure claimed by C5 for a successful run: the trace splits
as observational prefix, streamer selection, stream open, a segment holding
(exactly) the overwrite checks on all destinations (plus deletions and
progress output), the single header write, the decoding segment (reads and
chunk writes only), and the terminal finalization. -/
def PhaseOrder (env : Env) (args : Args) : Prop :=
  ∃ q1 q2 q3 q4,
    (buildRaw env args).1 =
      q1 ++ Event.selectStreamer "FlashCam" ::
        (q2 ++ Event.openStream (effectiveBufferSize args.bufferSize args.nMax) (outStreamOf args) ::
          (q3 ++ Event.writeHeader env.headerData ::
            (q4 ++ [Event.finalize]))) ∧
    (∀ e ∈ q1, isObs e = true) ∧
    (∀ e ∈ q2, isObs e = true) ∧
    (∀ e ∈ q3, isObs e = true ∨ (∃ i, e = Event.checkDest i) ∨ (∃ i, e = Event.deleteDest i)) ∧
    (∀ e ∈ q4, isObs e = true ∨ e = Event.readChunk ∨ (∃ l, e = Event.writeChunk l)) ∧
    (∀ k, Event.checkDest k ∈ q3 ↔ k < env.destGlobs.length)

/-- C5: every successful run proceeds through the fixed phase order
"decoder resolution, stream open, overwrite preparation on all destinations,
single header write, decoding loop, finalize": the trace decomposes with the
selection, open, header-write and finalize events in that order, all
overwrite checks (one per destination) strictly between open and header
write, and all read/write-chunk events strictly after the header write. -/
theorem c5_phase_order (env : Env) (args : Args)
    (h : (buildRaw env args).2 = none) : PhaseOrder env args := by
  obtain ⟨hex, ht, hbs, hpf⟩ := buildRaw_success_facts env args h
  refine ⟨obsIf (0 < args.verbosity) [Event.consoleLine startMsg],
    obsIf (1 < args.verbosity) [Event.progressUpdate 0],
    obsIf (1 < args.verbosity ∧ args.nMax = none) [Event.progressUpdate env.bytesAfterOpen] ++
      (preflight args.overwrite 0 env.destGlobs).1,
    decodeLoop args.verbosity args.nMax env.chunks env.bytesAfterChunk env.bytesAfterOpen ++
      obsIf (0 < args.verbosity)
        [Event.summaryReport env.elapsed env.destSizes env.bytesTotal
          (env.bytesTotal / env.elapsed)],
    ?_, ?_, ?_, ?_, ?_, ?_⟩
  · rw [buildRaw_flashcam env args hex ht hbs]
    dsimp only
    rw [flashCamRun_success_trace env args hpf]
    dsimp only
    simp [List.append_assoc, List.cons_append]
  · intro e he
    have := mem_obsIf he
    simp only [List.mem_singleton] at this
    subst this
    rfl
  · intro e he
    have := mem_obsIf he
    simp only [List.mem_singleton] at this
    subst this
    rfl
  · intro e he
    rcases List.mem_append.mp he with hm | hm
    · have := mem_obsIf hm
      simp only [List.mem_singleton] at this
      subst this
      exact Or.inl rfl
    · rcases preflight_event_kinds _ _ _ _ hm with ⟨j, hk⟩ | ⟨j, hk⟩ | ⟨s, hk⟩
      · exact Or.inr (Or.inl ⟨j, hk⟩)
      · exact Or.inr (Or.inr ⟨j, hk⟩)
      · exact Or.inl (by simp [hk, isObs])
  · intro e he
    rcases List.mem_append.mp he with hm | hm
    · rcases decodeLoop_event_kinds _ _ _ _ _ _ hm with hk | ⟨l, hk⟩ | ⟨n, hk⟩
      · exact Or.inr (Or.inl hk)
      · exact Or.inr (Or.inr ⟨l, hk⟩)
      · exact Or.inl (by simp [hk, isObs])
    · have := mem_obsIf hm
      simp only [List.mem_singleton] at this
      subst this
      exact Or.inl rfl
  · intro k
    constructor
    · intro hk
      rcases List.mem_append.mp hk with hm | hm
      · have := mem_obsIf hm
        simp at this
      · have := (preflight_success_checks args.overwrite env.destGlobs 0 hpf k).mp hm
        omega
    · intro hk
      refine List.mem_append.mpr (Or.inr ?_)
      exact (preflight_success_checks args.overwrite env.destGlobs 0 hpf k).mpr (by omega)

def args5w : Args :=
  { inStream := "run0.fcio".toList, inStreamType := some "FlashCam", outSpec := OutSpec.unspecified,
    bufferSize := 8192, nMax := none, overwrite := true, verbosity := 2 }

/-- Witness for C5 at a concrete successful run. -/
theorem c5_phase_order_witness :
    (buildRaw envOk args5w).2 = none ∧ PhaseOrder envOk args5w :=
  ⟨by decide, c5_phase_order envOk args5w (by decide)⟩

end BuildRaw
